import Mathlib

/-!
Shallow embedding of `src/api/ollama.rs` of the `localcreature` repository:
the response-contract layer that turns raw model completions into structured
data (thought generation with validation/retry, dimensional evaluation,
plan creation, and the sequential batch coordinator).

Modelling conventions:
* Rust strings are modelled as lists of characters (`Str`), and the string
  operations the source uses (`split`, `lines`, `trim`, `to_lowercase`,
  `contains`, `join`) are given as executable functions on `Str`.
* The network transport (`OllamaClient::generate`) is modelled as an oracle
  argument: `gen n` is the outcome of the transport call of attempt `n`
  (`Except.error` = transport-level failure with an opaque payload).
  The prompt-building code only produces the string sent to the model and
  cannot influence the parsing of the completion, so it is not modelled.
* Numbers parsed out of completions (`str::parse::<f64>`) are modelled
  exactly as rationals; see `parseNum`.
-/

set_option synthInstance.maxSize 512

/-- Rust strings, modelled as lists of characters. -/
abbrev Str := List Char

/-- Character list of a string literal (used to write concrete completions). -/
def str (s : String) : Str := s.data

/-- Whitespace as recognized by Rust `str::trim` (ASCII fragment; the
remaining Unicode whitespace code points are outside the model and never
appear in the completions of this development). -/
def isRustWhitespace (c : Char) : Bool :=
  c = ' ' || c = '\t' || c = '\n' || c = '\r' || c = '\x0b' || c = '\x0c'

/-- Rust `str::trim`: strip leading and trailing whitespace. -/
def trimL (s : Str) : Str :=
  ((s.dropWhile isRustWhitespace).reverse.dropWhile isRustWhitespace).reverse

/-- Rust `str::split` with a single-character pattern (the source uses it
with `','`, `'|'` and, through `lines`, `'\n'`): the pieces strictly between
occurrences of the separator, in order. -/
def splitChar (sep : Char) : Str → List Str
  | [] => [[]]
  | c :: rest =>
    if c = sep then [] :: splitChar sep rest
    else
      match splitChar sep rest with
      | [] => [[c]]
      | piece :: more => (c :: piece) :: more

/-- Helper for `rustSplit`: scan the text left to right holding the current
piece reversed in `acc`; a piece is emitted as soon as the reversed pattern
is a prefix of `acc`, which yields the leftmost, non-overlapping matches of
Rust `str::split`. -/
def rustSplitGo (rpat : Str) : Str → Str → List Str
  | [], acc => [acc.reverse]
  | c :: rest, acc =>
    if rpat.isPrefixOf (c :: acc) then
      ((c :: acc).drop rpat.length).reverse :: rustSplitGo rpat rest []
    else rustSplitGo rpat rest (c :: acc)

/-- Rust `str::split` with a non-empty string pattern, as used with the
section markers `THOUGHT:` / `RELEVANCE:` / `FACTORS:`. -/
def rustSplit (pat s : Str) : List Str :=
  rustSplitGo pat.reverse s []

/-- Strip one trailing carriage return (Rust `str::lines` treats a final
`"\r\n"` as a single line ending). -/
def stripCR (l : Str) : Str :=
  if l.getLast? = some '\r' then l.dropLast else l

/-- Rust `str::lines`: split on `'\n'`, strip one trailing `'\r'` from every
piece that was terminated by a `'\n'`, and drop the final piece when it is
empty (the final line ending is optional). -/
def rustLines (s : Str) : List Str :=
  let pieces := splitChar '\n' s
  let most := pieces.dropLast.map stripCR
  match pieces.getLast? with
  | some [] => most
  | some last => most ++ [last]
  | none => most

/-- ASCII lowercasing of one character (non-ASCII case mappings of Rust
`str::to_lowercase` are outside the model; every banned term is ASCII). -/
def lowerChar (c : Char) : Char :=
  if 'A' ≤ c ∧ c ≤ 'Z' then Char.ofNat (c.toNat + 32) else c

/-- Rust `str::to_lowercase` on the ASCII fragment. -/
def lowerL (s : Str) : Str := s.map lowerChar

/-- Rust `str::contains` with a string pattern: some suffix of `hay` starts
with `pat`. -/
def rustContains : Str → Str → Bool
  | [], pat => pat.isEmpty
  | c :: rest, pat => pat.isPrefixOf (c :: rest) || rustContains rest pat

/-- Rust `Vec::join("\n")`. -/
def joinLines : List Str → Str
  | [] => []
  | [l] => l
  | l :: ls => l ++ '\n' :: joinLines ls

/-- The proposition that `pat` occurs as a contiguous substring of `hay`. -/
def occursIn (pat hay : Str) : Prop := ∃ s1 s2, hay = s1 ++ pat ++ s2

/-- Numeric value of a digit string, most significant digit first. -/
def natOfDigits (ds : List Char) : Nat :=
  ds.foldl (fun n c => 10 * n + (c.toNat - 48)) 0

/-- Parse the optional exponent suffix of a float literal and combine it
with the already-parsed mantissa `num / den`; the whole remaining input must
be consumed (Rust `f64::from_str` rejects trailing garbage). -/
def parseExpPart (num : Int) (den : Nat) : Str → Option ℚ
  | [] => some (mkRat num den)
  | c :: rest =>
    if c = 'e' ∨ c = 'E' then
      let (negExp, rest2) :=
        match rest with
        | '+' :: t => (false, t)
        | '-' :: t => (true, t)
        | t => (false, t)
      let ds := rest2.takeWhile Char.isDigit
      let rest3 := rest2.dropWhile Char.isDigit
      if ds.isEmpty || !rest3.isEmpty then none
      else if negExp then some (mkRat num (den * 10 ^ natOfDigits ds))
      else some (mkRat (num * 10 ^ natOfDigits ds) den)
    else none

/-- Parse a float literal after its optional sign: digits with an optional
fraction (at least one digit overall) and an optional exponent. -/
def parseUnsigned (neg : Bool) (cs : Str) : Option ℚ :=
  let ip := cs.takeWhile Char.isDigit
  let r1 := cs.dropWhile Char.isDigit
  match r1 with
  | '.' :: r2 =>
    let fp := r2.takeWhile Char.isDigit
    let r3 := r2.dropWhile Char.isDigit
    if ip.isEmpty && fp.isEmpty then none
    else
      let num : Int := natOfDigits ip * 10 ^ fp.length + natOfDigits fp
      parseExpPart (if neg then -num else num) (10 ^ fp.length) r3
  | _ =>
    if ip.isEmpty then none
    else
      let num : Int := natOfDigits ip
      parseExpPart (if neg then -num else num) 1 r1

/-- Model of Rust `str::parse::<f64>()` on the tokens this layer meets: an
optional sign followed by a finite decimal literal, evaluated exactly as a
rational.  The special forms `inf`/`infinity`/`nan` and the rounding of
decimal literals to binary floating point are outside the model; no claim
of this development depends on them. -/
def parseNum (s : Str) : Option ℚ :=
  match s with
  | '+' :: r => parseUnsigned false r
  | '-' :: r => parseUnsigned true r
  | r => parseUnsigned false r

/-- Error values of the adapter.  Each constructor corresponds to one error
construction site of the source, which boxes a plain message string there;
`transport` stands for an error propagated out of the HTTP transport, with
an opaque payload. -/
inductive OllamaError where
  /-- Any error of `OllamaClient::generate` (connection, status, envelope). -/
  | transport (e : Nat)
  /-- "Invalid response" (no `THOUGHT:` marker). -/
  | invalidResponse
  /-- "Missing thought". -/
  | missingThought
  /-- "Missing relevance" (no `RELEVANCE:` marker after `THOUGHT:`). -/
  | missingRelevance
  /-- "Invalid relevance score". -/
  | invalidRelevanceScore
  /-- "Invalid response format from model" (dimensional evaluation). -/
  | invalidResponseFormat
  /-- "Failed to generate valid thought" (after the retry loop). -/
  | failedValidThought
deriving DecidableEq

deriving instance DecidableEq for Except

/-- Rust `Option::ok_or`, landing in this layer's error type. -/
def okOr (o : Option α) (e : OllamaError) : Except OllamaError α :=
  match o with
  | some a => .ok a
  | none => .error e

/-- Does the error come from the post-loop site of
`generate_contextual_thought` ("Failed to generate valid thought")? -/
def isFailedMsg : OllamaError → Bool
  | .failedValidThought => true
  | _ => false

/-- The fixed banned-vocabulary list of source `validate_thought_content`. -/
def prohibited_terms : List Str :=
  [str "energy level", str "evolution stage", str "dimensional position",
   str "emergence:", str "coherence:", str "resilience:",
   str "intelligence:", str "efficiency:", str "integration:"]

/-- Source `validate_thought_content`: the text contains no banned term,
case-insensitively. -/
def validate_thought_content (thought : Str) : Bool :=
  !(prohibited_terms.any fun term =>
      rustContains (lowerL thought) (lowerL term))

/-- Source `clean_thought_content`: keep exactly the lines that pass
`validate_thought_content` and rejoin them with newlines. -/
def clean_thought_content (thought : Str) : Str :=
  joinLines ((rustLines thought).filter fun line => validate_thought_content line)

/-- Parsing part of source `evaluate_dimensional_state` (the prompt build
and the transport call are factored out): split the completion on commas,
keep the tokens that parse as numbers, and demand exactly two. -/
def evaluate_dimensional_state (response : Str) : Except OllamaError (ℚ × ℚ) :=
  let values := (splitChar ',' response).filterMap fun s => parseNum (trimL s)
  if values.length ≠ 2 then .error .invalidResponseFormat
  else .ok (values.getD 0 0, values.getD 1 0)

/-- Parsing part of source `generate_thought_internal`, modelled on the raw
completion the transport returned: take the text after the first `THOUGHT:`,
split it at `RELEVANCE:`, parse the relevance from the first line of the
text following the marker, and collect optional `FACTORS:` lines. -/
def generate_thought_internal (response : Str) :
    Except OllamaError (Str × ℚ × List Str) :=
  match okOr (rustSplit (str "THOUGHT:") response)[1]? .invalidResponse with
  | .error e => .error e
  | .ok afterThought =>
    let sections := rustSplit (str "RELEVANCE:") afterThought
    match okOr sections.head? .missingThought with
    | .error e => .error e
    | .ok thought =>
      match okOr sections[1]? .missingRelevance with
      | .error e => .error e
      | .ok rest =>
        match okOr ((rustLines rest).head?.bind fun l => parseNum (trimL l))
            .invalidRelevanceScore with
        | .error e => .error e
        | .ok relevance =>
          let factors :=
            (((rustSplit (str "FACTORS:") rest)[1]?).map
              fun f => ((rustLines f).filter fun l => !(trimL l).isEmpty).map
                fun l => trimL l).getD []
          .ok (trimL thought, relevance, factors)

/-- Loop of source `generate_contextual_thought`: the Rust
`for attempt in 0..3` iterates over the index list `[0, 1, 2]`; `gen n` is
the outcome of the transport call of attempt `n`. -/
def gct_go (gen : Nat → Except Nat Str) :
    List Nat → Except OllamaError (Str × ℚ × List Str)
  | [] => .error .failedValidThought
  | attempt :: rest =>
    match gen attempt with
    | .error e => .error (.transport e)
    | .ok response =>
      match generate_thought_internal response with
      | .error e => .error e
      | .ok (thought, relevance, factors) =>
        if validate_thought_content thought then .ok (thought, relevance, factors)
        else if attempt = 2 then
          .ok (clean_thought_content thought, relevance, factors)
        else gct_go gen rest

/-- Source `generate_contextual_thought`: up to three attempts, returning
the first validated thought, or the cleaned thought of the last attempt. -/
def generate_contextual_thought (gen : Nat → Except Nat Str) :
    Except OllamaError (Str × ℚ × List Str) :=
  gct_go gen [0, 1, 2]

/-- Plan node status.  Modelled from the spec: the domain types of
`crate::models::types` are not under `src/`; the spec fixes only that every
node is created with status "Pending". -/
inductive PlanNodeStatus where
  | Pending
deriving DecidableEq

/-- Plan status.  Modelled from the spec: plans are created as "Proposed". -/
inductive PlanStatus where
  | Proposed
deriving DecidableEq

/-- Plan node.  Modelled from the spec (`crate::models::types` is not under
`src/`): title, description, status, completion estimate and dependency
list; the freshly generated opaque `Uuid` is outside the model. -/
structure PlanNode where
  title : Str
  description : Str
  status : PlanNodeStatus
  estimated_completion : ℚ
  dependencies : List Str
deriving DecidableEq

/-- Plan.  Modelled from the spec (`crate::models::types` is not under
`src/`): summary, nodes, source thoughts (kept as their contents), score,
participating cells and status; the fresh `Uuid` and the `created_at`
wall-clock timestamp are outside the model. -/
structure Plan where
  summary : Str
  nodes : List PlanNode
  thoughts : List Str
  score : ℚ
  participating_cells : List Str
  status : PlanStatus
deriving DecidableEq

/-- Source `parse_plan_node`: a line is a node when it splits into at least
three pipe-delimited parts with non-empty trimmed title and description;
the completion estimate falls back to 0.0 when unparsable and is clamped
to [0, 1]. -/
def parse_plan_node (line : Str) : Option PlanNode :=
  let parts := splitChar '|' line
  if parts.length ≥ 3 then
    let title := trimL (parts.getD 0 [])
    let description := trimL (parts.getD 1 [])
    let completion : ℚ := (parseNum (trimL (parts.getD 2 []))).getD 0
    if !title.isEmpty && !description.isEmpty then
      some { title := title, description := description, status := .Pending,
             estimated_completion := max 0 (min completion 1), dependencies := [] }
    else none
  else none

/-- Source `generate_default_nodes`: the three synthesized nodes used when a
completion contains no valid node line; the first references the summary. -/
def generate_default_nodes (summary : Str) : List PlanNode :=
  [{ title := str "Initial Analysis",
     description := str "Analyze current state and requirements for: " ++ summary,
     status := .Pending, estimated_completion := 0, dependencies := [] },
   { title := str "Implementation Strategy",
     description := str "Develop detailed implementation approach based on initial analysis",
     status := .Pending, estimated_completion := 0, dependencies := [] },
   { title := str "Validation and Review",
     description := str "Review implementation results and validate against objectives",
     status := .Pending, estimated_completion := 0, dependencies := [] }]

/-- Source `create_default_node`: the padding node "Phase {index}". -/
def create_default_node (index : Nat) : PlanNode :=
  { title := str "Phase " ++ str (toString index),
    description := str "Execute phase " ++ str (toString index) ++ str " of the plan",
    status := .Pending, estimated_completion := 0, dependencies := [] }

/-- The `current_section` marker of the `create_plan` parsing loop. -/
inductive PlanSection where
  | none
  | summary
  | nodes
  | score
deriving DecidableEq

/-- Line loop of source `create_plan`: fold over the completion's lines,
tracking the current section and accumulating the summary (last non-empty
line of the SUMMARY section), the parsed nodes, and the score. -/
def create_plan_go : List Str → PlanSection → Str → List PlanNode → ℚ →
    Str × List PlanNode × ℚ
  | [], _, summary, nodes, score => (summary, nodes, score)
  | line :: rest, sec, summary, nodes, score =>
    let t := trimL line
    if t = str "SUMMARY:" then create_plan_go rest .summary summary nodes score
    else if t = str "NODES:" then create_plan_go rest .nodes summary nodes score
    else if t = str "SCORE:" then create_plan_go rest .score summary nodes score
    else if t = [] then create_plan_go rest sec summary nodes score
    else
      match sec with
      | .summary =>
        if !t.isEmpty then create_plan_go rest sec t nodes score
        else create_plan_go rest sec summary nodes score
      | .nodes =>
        match parse_plan_node t with
        | some node => create_plan_go rest sec summary (nodes ++ [node]) score
        | Option.none => create_plan_go rest sec summary nodes score
      | .score =>
        match parseNum (trimL t) with
        | some s => create_plan_go rest sec summary nodes s
        | Option.none => create_plan_go rest sec summary nodes score
      | .none => create_plan_go rest sec summary nodes score

/-- Summary, node list and score that `create_plan` extracts from a
completion before padding (defaults: "Plan based on collected thoughts",
no nodes, score 0.5). -/
def create_plan_sections (response : Str) : Str × List PlanNode × ℚ :=
  create_plan_go (rustLines response) .none
    (str "Plan based on collected thoughts") [] (mkRat 1 2)

/-- Padding loop of source `create_plan` (`while nodes.len() < 3`): each
pass appends exactly one default node, so three passes always suffice. -/
def padNodesGo : Nat → List PlanNode → List PlanNode
  | 0, nodes => nodes
  | k + 1, nodes =>
    if nodes.length < 3 then
      padNodesGo k (nodes ++ [create_default_node (nodes.length + 1)])
    else nodes

/-- The node-count floor of source `create_plan`: synthesize all three
default nodes when no node line parsed, then pad to at least three. -/
def padNodes (nodes : List PlanNode) : List PlanNode := padNodesGo 3 nodes

/-- Source `create_plan`, modelled on the raw completion: parse sections,
synthesize defaults where absent, and pad the node list to at least three
entries.  The thoughts are only interpolated into the prompt and stored in
the resulting plan. -/
def create_plan (thoughts : List Str) (response : Str) : Plan :=
  let parsed := create_plan_sections response
  let nodes0 :=
    if parsed.2.1.isEmpty then generate_default_nodes parsed.1 else parsed.2.1
  { summary := parsed.1, nodes := padNodes nodes0, thoughts := thoughts,
    score := parsed.2.2, participating_cells := [], status := .Proposed }

/-- Insert-or-overwrite of Rust `HashMap::insert`, modelled on an
association list that keeps first-insertion order of keys. -/
def hmInsert [DecidableEq κ] : List (κ × α) → κ → α → List (κ × α)
  | [], k, v => [(k, v)]
  | (k', v') :: rest, k, v =>
    if k = k' then (k, v) :: rest else (k', v') :: hmInsert rest k v

/-- Loop of source `generate_contextual_thoughts_batch`: strictly
sequential, one identity at a time, aborting the whole batch on the first
failing identity.  `gen ctx n` is the completion of attempt `n` of the
thought generation for a cell whose context is `ctx`. -/
def gctb_go [DecidableEq κ] (gen : Ctx → Nat → Except Nat Str) :
    List (κ × Ctx) → List (κ × List (Str × ℚ × List Str)) →
    Except OllamaError (List (κ × List (Str × ℚ × List Str)))
  | [], results => .ok results
  | (cellId, context) :: rest, results =>
    match generate_contextual_thought (gen context) with
    | .error e => .error e
    | .ok res => gctb_go gen rest (hmInsert results cellId [res])

/-- Source `generate_contextual_thoughts_batch` (the `additional_context`
parameter is unused by the source and kept here). -/
def generate_contextual_thoughts_batch [DecidableEq κ]
    (gen : Ctx → Nat → Except Nat Str) (cell_contexts : List (κ × Ctx))
    (additional_context : List Str) :
    Except OllamaError (List (κ × List (Str × ℚ × List Str))) :=
  gctb_go gen cell_contexts []

/-! ### Lemmas about the string model -/

theorem splitChar_ne_nil (sep : Char) (s : Str) : splitChar sep s ≠ [] := by
  induction s with
  | nil => simp [splitChar]
  | cons c t ih =>
    simp only [splitChar]
    split
    · simp
    · split
      · simp
      · simp

theorem splitChar_cons_sep (sep : Char) (t : Str) :
    splitChar sep (sep :: t) = [] :: splitChar sep t := by
  simp [splitChar]

theorem splitChar_append (sep : Char) (l r : Str) (h : sep ∉ l) :
    splitChar sep (l ++ sep :: r) = l :: splitChar sep r := by
  induction l with
  | nil => simpa using splitChar_cons_sep sep r
  | cons c l' ih =>
    have hc : ¬ c = sep := fun hcs => h (by simp [hcs])
    have h' : sep ∉ l' := fun hm => h (List.mem_cons_of_mem _ hm)
    simp only [List.cons_append, splitChar, if_neg hc, List.append_eq]
    rw [ih h']

theorem splitChar_single (sep : Char) (l : Str) (h : sep ∉ l) :
    splitChar sep l = [l] := by
  induction l with
  | nil => simp [splitChar]
  | cons c l' ih =>
    have hc : ¬ c = sep := fun hcs => h (by simp [hcs])
    have h' : sep ∉ l' := fun hm => h (List.mem_cons_of_mem _ hm)
    simp only [splitChar, if_neg hc]
    rw [ih h']

theorem stripCR_eq_self (l : Str) (h : '\r' ∉ l) : stripCR l = l := by
  unfold stripCR
  split
  · next heq => exact absurd (List.mem_of_getLast?_eq_some heq) h
  · rfl

theorem rustLines_append (l r : Str) (hn : '\n' ∉ l) (hr : '\r' ∉ l) :
    rustLines (l ++ '\n' :: r) = l :: rustLines r := by
  obtain ⟨q, qs, hqr⟩ : ∃ q qs, splitChar '\n' r = q :: qs := by
    rcases hsp : splitChar '\n' r with _ | ⟨q, qs⟩
    · exact absurd hsp (splitChar_ne_nil '\n' r)
    · exact ⟨q, qs, rfl⟩
  simp only [rustLines, splitChar_append '\n' l r hn, hqr, List.getLast?_cons_cons]
  rcases hlast : (q :: qs).getLast? with _ | last
  · simp at hlast
  · cases last with
    | nil => simp [hlast, stripCR_eq_self l hr]
    | cons x xs => simp [hlast, stripCR_eq_self l hr]

theorem rustLines_single (l : Str) (hn : '\n' ∉ l) (hne : l ≠ []) :
    rustLines l = [l] := by
  unfold rustLines
  rw [splitChar_single '\n' l hn]
  rcases l with _ | ⟨c, t⟩
  · exact absurd rfl hne
  · simp

theorem rustLines_joinLines : ∀ ls : List Str,
    (∀ l ∈ ls, '\n' ∉ l ∧ '\r' ∉ l) → ls.getLast? ≠ some [] →
    rustLines (joinLines ls) = ls := by
  intro ls
  induction ls with
  | nil => intro _ _; decide
  | cons l ls' ih =>
    intro h hlast
    cases ls' with
    | nil =>
      have hne : l ≠ [] := fun he => hlast (by simp [he])
      simpa [joinLines] using rustLines_single l (h l (by simp)).1 hne
    | cons m ms =>
      have hj : joinLines (l :: m :: ms) = l ++ '\n' :: joinLines (m :: ms) := rfl
      rw [hj, rustLines_append _ _ (h l (by simp)).1 (h l (by simp)).2,
        ih (fun x hx => h x (List.mem_cons_of_mem _ hx))
          (by rwa [List.getLast?_cons_cons] at hlast)]

/-- C8: content cleaning keeps exactly the lines that pass the validator, in
their original order and with their content unchanged, rejoined with
newlines; in particular a text whose lines all pass is returned unchanged. -/
theorem clean_keeps_exactly_valid_lines (ls : List Str)
    (h : ∀ l ∈ ls, '\n' ∉ l ∧ '\r' ∉ l) (hlast : ls.getLast? ≠ some []) :
    clean_thought_content (joinLines ls)
      = joinLines (ls.filter fun l => validate_thought_content l) := by
  unfold clean_thought_content
  rw [rustLines_joinLines ls h hlast]

theorem clean_keeps_exactly_valid_lines_witness :
    clean_thought_content (str "first line\nhidden energy level here\nthird line")
      = str "first line\nthird line" := by
  have h := clean_keeps_exactly_valid_lines
    [str "first line", str "hidden energy level here", str "third line"]
    (by decide) (by decide)
  have e1 : joinLines [str "first line", str "hidden energy level here", str "third line"]
      = str "first line\nhidden energy level here\nthird line" := by decide
  have e2 : joinLines (([str "first line", str "hidden energy level here",
        str "third line"]).filter fun l => validate_thought_content l)
      = str "first line\nthird line" := by decide
  rw [e1, e2] at h
  exact h

/-! ### Substring occurrence and the content validator -/

theorem rustContains_iff (hay pat : Str) :
    rustContains hay pat = true ↔ occursIn pat hay := by
  induction hay with
  | nil =>
    constructor
    · intro h
      have hp : pat = [] := by simpa [rustContains, List.isEmpty_iff] using h
      exact ⟨[], [], by simp [hp]⟩
    · rintro ⟨s1, s2, h⟩
      have h2 := h.symm
      simp only [List.append_eq_nil] at h2
      simp [rustContains, h2.1.2]
  | cons c t ih =>
    simp only [rustContains, Bool.or_eq_true, List.isPrefixOf_iff_prefix, ih]
    constructor
    · rintro (⟨u, hu⟩ | ⟨s1, s2, hocc⟩)
      · exact ⟨[], u, by simp [hu]⟩
      · exact ⟨c :: s1, s2, by simp [hocc]⟩
    · rintro ⟨s1, s2, h⟩
      cases s1 with
      | nil => exact Or.inl ⟨s2, by simpa using h.symm⟩
      | cons a s1' =>
        have h2 := h
        rw [List.cons_append, List.cons_append] at h2
        injection h2 with hca ht
        exact Or.inr ⟨s1', s2, ht⟩

theorem occursIn_append_cons (pat l1 l2 : Str) (c : Char) (hc : c ∉ pat) :
    occursIn pat (l1 ++ c :: l2) → occursIn pat l1 ∨ occursIn pat l2 := by
  rintro ⟨s1, s2, h⟩
  rw [List.append_assoc] at h
  rcases List.append_eq_append_iff.mp h with ⟨a, hs1, hb⟩ | ⟨d, hl1, hd⟩
  · cases a with
    | nil =>
      cases pat with
      | nil => exact Or.inr ⟨[], l2, by simp⟩
      | cons p pt =>
        rw [List.nil_append, List.cons_append] at hb
        injection hb with hcp
        exact absurd (by simp [hcp]) hc
    | cons x a' =>
      rw [List.cons_append] at hb
      injection hb with hcx hl2
      exact Or.inr ⟨a', s2, by rw [hl2, List.append_assoc]⟩
  · rcases List.append_eq_append_iff.mp hd with ⟨a', hda, hs2⟩ | ⟨q, hpat, hq⟩
    · exact Or.inl ⟨s1, a', by rw [hl1, hda, List.append_assoc]⟩
    · cases q with
      | nil =>
        rw [List.append_nil] at hpat
        exact Or.inl ⟨s1, [], by rw [hl1, hpat, List.append_nil]⟩
      | cons x q' =>
        rw [List.cons_append] at hq
        injection hq with hcx
        exact absurd (by rw [hpat, hcx]; simp) hc

theorem validate_iff (t : Str) :
    validate_thought_content t = true ↔
      ∀ p ∈ prohibited_terms, ¬ occursIn (lowerL p) (lowerL t) := by
  have key : (prohibited_terms.any fun term => rustContains (lowerL t) (lowerL term)) = true
      ↔ ∃ p ∈ prohibited_terms, occursIn (lowerL p) (lowerL t) := by
    rw [List.any_eq_true]
    constructor
    · rintro ⟨p, hp, hcont⟩
      exact ⟨p, hp, (rustContains_iff _ _).mp hcont⟩
    · rintro ⟨p, hp, hocc⟩
      exact ⟨p, hp, (rustContains_iff _ _).mpr hocc⟩
  unfold validate_thought_content
  constructor
  · intro h p hp hocc
    rw [Bool.not_eq_true'] at h
    exact absurd (key.mpr ⟨p, hp, hocc⟩) (by simp [h])
  · intro h
    rw [Bool.not_eq_true']
    cases hb : (prohibited_terms.any fun term => rustContains (lowerL t) (lowerL term)) with
    | false => rfl
    | true =>
      obtain ⟨p, hp, hocc⟩ := key.mp hb
      exact absurd hocc (h p hp)

theorem validate_joinLines (ls : List Str)
    (h : ∀ l ∈ ls, validate_thought_content l = true) :
    validate_thought_content (joinLines ls) = true := by
  induction ls with
  | nil => decide
  | cons l ls' ih =>
    cases ls' with
    | nil => simpa [joinLines] using h l (by simp)
    | cons m ms =>
      rw [validate_iff]
      intro p hp hocc
      have hterm : ∀ q ∈ prohibited_terms, '\n' ∉ lowerL q := by decide
      have hlow : lowerChar '\n' = '\n' := by decide
      have hj : joinLines (l :: m :: ms) = l ++ '\n' :: joinLines (m :: ms) := rfl
      rw [hj, show lowerL (l ++ '\n' :: joinLines (m :: ms))
          = lowerL l ++ '\n' :: lowerL (joinLines (m :: ms)) from by
        simp [lowerL, hlow]] at hocc
      rcases occursIn_append_cons _ _ _ _ (hterm p hp) hocc with h1 | h2
      · exact (validate_iff l).mp (h l (by simp)) p hp h1
      · exact (validate_iff _).mp
          (ih fun x hx => h x (List.mem_cons_of_mem _ hx)) p hp h2

theorem validate_clean (t : Str) :
    validate_thought_content (clean_thought_content t) = true := by
  unfold clean_thought_content
  exact validate_joinLines _ fun l hl => (List.mem_filter.mp hl).2

/-! ### The retry/repair loop -/

theorem gct_go_ok_shape (gen : Nat → Except Nat Str) :
    ∀ (attempts : List Nat) (t : Str) (r : ℚ) (f : List Str),
      gct_go gen attempts = .ok (t, r, f) →
      validate_thought_content t = true ∨ ∃ x, t = clean_thought_content x := by
  intro attempts
  induction attempts with
  | nil => intro t r f h; exact Except.noConfusion h
  | cons a rest ih =>
    intro t r f h
    simp only [gct_go] at h
    split at h
    · exact Except.noConfusion h
    · split at h
      · exact Except.noConfusion h
      · next thought relevance factors heq =>
        split at h
        · next hv =>
          obtain ⟨rfl, rfl, rfl⟩ : thought = t ∧ relevance = r ∧ factors = f := by
            simpa using h
          exact Or.inl hv
        · split at h
          · obtain ⟨rfl, rfl, rfl⟩ :
                clean_thought_content thought = t ∧ relevance = r ∧ factors = f := by
              simpa using h
            exact Or.inr ⟨thought, rfl⟩
          · exact ih t r f h

/-- C3: every thought returned by a successful `generate_contextual_thought`
call contains none of the banned terms as a case-insensitive substring —
it either passed `validate_thought_content` or was sanitized by
`clean_thought_content`. -/
theorem generated_thought_has_no_banned_term (gen : Nat → Except Nat Str)
    (t : Str) (r : ℚ) (f : List Str)
    (h : generate_contextual_thought gen = .ok (t, r, f)) :
    ∀ p ∈ prohibited_terms, ¬ occursIn (lowerL p) (lowerL t) := by
  rcases gct_go_ok_shape gen [0, 1, 2] t r f h with hv | ⟨x, rfl⟩
  · exact (validate_iff t).mp hv
  · exact (validate_iff _).mp (validate_clean x)

theorem generated_thought_has_no_banned_term_witness :
    generate_contextual_thought
        (fun _ => .ok (str "THOUGHT:\nBuild trust networks\nRELEVANCE: 0.7"))
      = .ok (str "Build trust networks", mkRat 7 10, [])
    ∧ ∀ p ∈ prohibited_terms,
        ¬ occursIn (lowerL p) (lowerL (str "Build trust networks")) := by
  have h : generate_contextual_thought
      (fun _ => .ok (str "THOUGHT:\nBuild trust networks\nRELEVANCE: 0.7"))
      = .ok (str "Build trust networks", mkRat 7 10, []) := by decide
  exact ⟨h, generated_thought_has_no_banned_term _ _ _ _ h⟩

/-- C2: when all three attempts parse but every attempt's content fails
validation, the call returns the line-cleaned content of the third attempt
together with that attempt's relevance and factors and does not fail; when
some attempt's content is the first to pass validation, that content is
returned unmodified with its relevance and factors. -/
theorem retry_policy_degrades_to_cleaned_third (gen : Nat → Except Nat Str)
    (c t : Nat → Str) (r : Nat → ℚ) (f : Nat → List Str)
    (hgen : ∀ i < 3, gen i = .ok (c i))
    (hparse : ∀ i < 3, generate_thought_internal (c i) = .ok (t i, r i, f i)) :
    ((∀ i < 3, validate_thought_content (t i) = false) →
      generate_contextual_thought gen
        = .ok (clean_thought_content (t 2), r 2, f 2))
    ∧ (∀ j < 3, validate_thought_content (t j) = true →
        (∀ i < j, validate_thought_content (t i) = false) →
        generate_contextual_thought gen = .ok (t j, r j, f j)) := by
  have g0 := hgen 0 (by omega)
  have g1 := hgen 1 (by omega)
  have g2 := hgen 2 (by omega)
  have p0 := hparse 0 (by omega)
  have p1 := hparse 1 (by omega)
  have p2 := hparse 2 (by omega)
  constructor
  · intro hv
    have v0 := hv 0 (by omega)
    have v1 := hv 1 (by omega)
    have v2 := hv 2 (by omega)
    simp [generate_contextual_thought, gct_go, g0, p0, v0, g1, p1, v1, g2, p2, v2]
  · intro j hj hvj hlt
    interval_cases j
    · simp [generate_contextual_thought, gct_go, g0, p0, hvj]
    · have v0 := hlt 0 (by omega)
      simp [generate_contextual_thought, gct_go, g0, p0, v0, g1, p1, hvj]
    · have v0 := hlt 0 (by omega)
      have v1 := hlt 1 (by omega)
      simp [generate_contextual_thought, gct_go, g0, p0, v0, g1, p1, v1, g2, p2, hvj]

theorem retry_policy_degrades_to_cleaned_third_witness :
    generate_contextual_thought
        (fun _ => .ok (str "THOUGHT:\nThe energy level rises\nRELEVANCE: 0.4"))
      = .ok ([], mkRat 2 5, []) := by
  have h := (retry_policy_degrades_to_cleaned_third
    (fun _ => .ok (str "THOUGHT:\nThe energy level rises\nRELEVANCE: 0.4"))
    (fun _ => str "THOUGHT:\nThe energy level rises\nRELEVANCE: 0.4")
    (fun _ => str "The energy level rises") (fun _ => mkRat 2 5) (fun _ => [])
    (fun _ _ => rfl)
    (fun i _ => by
      show generate_thought_internal (str "THOUGHT:\nThe energy level rises\nRELEVANCE: 0.4")
        = .ok (str "The energy level rises", mkRat 2 5, [])
      decide)).1
    (fun i _ => by
      show validate_thought_content (str "The energy level rises") = false
      decide)
  exact h.trans (by decide)

/-- Helper for C6: every successful outcome of the retry loop carries the
relevance parsed by `generate_thought_internal` from the completion of the
attempt that produced it; nothing clamps it. -/
theorem gct_go_relevance_bounds (gen : Nat → Except Nat Str)
    (H : ∀ n resp th rel fac, gen n = .ok resp →
      generate_thought_internal resp = .ok (th, rel, fac) → 0 ≤ rel ∧ rel ≤ 1) :
    ∀ (attempts : List Nat) (t : Str) (r : ℚ) (f : List Str),
      gct_go gen attempts = .ok (t, r, f) → 0 ≤ r ∧ r ≤ 1 := by
  intro attempts
  induction attempts with
  | nil => intro t r f h; exact Except.noConfusion h
  | cons a rest ih =>
    intro t r f h
    simp only [gct_go] at h
    rcases hga : gen a with e | response
    · simp only [hga] at h
      exact Except.noConfusion h
    · simp only [hga] at h
      rcases heq : generate_thought_internal response with e | ⟨thought, relevance, factors⟩
      · simp only [heq] at h
        exact Except.noConfusion h
      · simp only [heq] at h
        split at h
        · obtain ⟨rfl, rfl, rfl⟩ : thought = t ∧ relevance = r ∧ factors = f := by
            simpa using h
          exact H a response thought relevance factors hga heq
        · split at h
          · obtain ⟨rfl, rfl, rfl⟩ :
                clean_thought_content thought = t ∧ relevance = r ∧ factors = f := by
              simpa using h
            exact H a response thought relevance factors hga heq
          · exact ih t r f h

/-- C6 (amended): the relevance of a successful thought-generation call lies
in [0, 1] provided the relevance value parsed on every successfully parsed
attempt lies in [0, 1]; the code itself applies no clamping, so this
proviso is necessary (see the counterexample). -/
theorem relevance_in_unit_interval_when_parsed_bounded
    (gen : Nat → Except Nat Str) (t : Str) (r : ℚ) (f : List Str)
    (H : ∀ n resp th rel fac, gen n = .ok resp →
      generate_thought_internal resp = .ok (th, rel, fac) → 0 ≤ rel ∧ rel ≤ 1)
    (h : generate_contextual_thought gen = .ok (t, r, f)) :
    0 ≤ r ∧ r ≤ 1 :=
  gct_go_relevance_bounds gen H [0, 1, 2] t r f h

theorem relevance_in_unit_interval_when_parsed_bounded_witness :
    generate_contextual_thought
        (fun _ => .ok (str "THOUGHT:\nShare context early\nRELEVANCE: 0.5"))
      = .ok (str "Share context early", mkRat 1 2, [])
    ∧ 0 ≤ mkRat 1 2 ∧ mkRat 1 2 ≤ 1 := by
  have h : generate_contextual_thought
      (fun _ => .ok (str "THOUGHT:\nShare context early\nRELEVANCE: 0.5"))
      = .ok (str "Share context early", mkRat 1 2, []) := by decide
  refine ⟨h, relevance_in_unit_interval_when_parsed_bounded _ _ _ _ ?_ h⟩
  intro n resp th rel fac hg hp
  have hresp : resp = str "THOUGHT:\nShare context early\nRELEVANCE: 0.5" :=
    (Except.ok.inj hg).symm
  rw [hresp] at hp
  have hval : generate_thought_internal
      (str "THOUGHT:\nShare context early\nRELEVANCE: 0.5")
      = .ok (str "Share context early", mkRat 1 2, []) := by decide
  rw [hval] at hp
  obtain ⟨rfl, rfl, rfl⟩ : str "Share context early" = th ∧ mkRat 1 2 = rel ∧ [] = fac := by
    simpa using hp
  exact ⟨by decide, by decide⟩

/-- C6 counterexample: a successful call whose returned relevance is 5,
outside [0, 1] — the parsed relevance is returned without clamping. -/
theorem relevance_unclamped_counterexample :
    generate_contextual_thought
        (fun _ => .ok (str "THOUGHT:\nShare context\nRELEVANCE: 5"))
      = .ok (str "Share context", mkRat 5 1, [])
    ∧ ¬ (mkRat 5 1 ≤ 1) := by
  exact ⟨by decide, by decide⟩

/-- Every error of the thought parser is one of its four parse errors —
in particular never the post-loop "Failed to generate valid thought". -/
theorem gti_error_not_failed (resp : Str) (e : OllamaError)
    (h : generate_thought_internal resp = .error e) : isFailedMsg e = false := by
  simp only [generate_thought_internal, okOr] at h
  repeat' split at h
  all_goals try exact Except.noConfusion h
  all_goals try (rename_i hq; split at hq)
  all_goals try exact Except.noConfusion hq
  all_goals try exact Except.noConfusion h
  all_goals try (simp only [Except.error.injEq] at hq; subst hq)
  all_goals try (simp only [Except.error.injEq] at h; subst h)
  all_goals rfl

/-- Invariant of the retry loop for C10: whenever the list of remaining
attempt indices ends with the index 2 checked by the final-attempt branch,
the loop either returns a success or propagates an error of one of the
listed attempts; it never falls through to the post-loop error. -/
theorem gct_go_result_shape (gen : Nat → Except Nat Str) :
    ∀ attempts : List Nat, attempts.getLast? = some 2 →
      (∃ res, gct_go gen attempts = .ok res)
      ∨ (∃ n ∈ attempts,
          (∃ te, gen n = .error te ∧ gct_go gen attempts = .error (.transport te))
          ∨ (∃ resp pe, gen n = .ok resp
              ∧ generate_thought_internal resp = .error pe
              ∧ gct_go gen attempts = .error pe)) := by
  intro attempts
  induction attempts with
  | nil => intro hl; simp at hl
  | cons a rest ih =>
    intro hl
    rcases hga : gen a with te | resp
    · exact Or.inr ⟨a, by simp, Or.inl ⟨te, hga, by simp [gct_go, hga]⟩⟩
    · rcases heq : generate_thought_internal resp with pe | ⟨th, rel, fac⟩
      · exact Or.inr
          ⟨a, by simp, Or.inr ⟨resp, pe, hga, heq, by simp [gct_go, hga, heq]⟩⟩
      · cases hv : validate_thought_content th with
        | true => exact Or.inl ⟨(th, rel, fac), by simp [gct_go, hga, heq, hv]⟩
        | false =>
          by_cases ha : a = 2
          · subst ha
            exact Or.inl ⟨(clean_thought_content th, rel, fac),
              by simp [gct_go, hga, heq, hv]⟩
          · have hrest : rest.getLast? = some 2 := by
              cases rest with
              | nil => simp at hl; exact absurd hl ha
              | cons b bs => rwa [List.getLast?_cons_cons] at hl
            rcases ih hrest with ⟨res, hres⟩ | ⟨n, hn, hcase⟩
            · exact Or.inl ⟨res, by simp [gct_go, hga, heq, hv, ha, hres]⟩
            · refine Or.inr ⟨n, List.mem_cons_of_mem _ hn, ?_⟩
              rcases hcase with ⟨te, h1, h2⟩ | ⟨resp', pe, h1, h2, h3⟩
              · exact Or.inl ⟨te, h1, by simp [gct_go, hga, heq, hv, ha, h2]⟩
              · exact Or.inr
                  ⟨resp', pe, h1, h2, by simp [gct_go, hga, heq, hv, ha, h3]⟩

/-- C10: the post-loop error branch of `generate_contextual_thought` is
unreachable — for every sequence of transport outcomes the call either
returns a success produced inside the first three iterations or propagates
an error of an individual attempt, and no propagated error is the
post-loop "Failed to generate valid thought" error. -/
theorem post_loop_failure_unreachable (gen : Nat → Except Nat Str) :
    (∃ res, generate_contextual_thought gen = .ok res)
    ∨ (∃ n ∈ [0, 1, 2],
        (∃ te, gen n = .error te
          ∧ generate_contextual_thought gen = .error (.transport te))
        ∨ (∃ resp pe, gen n = .ok resp
            ∧ generate_thought_internal resp = .error pe
            ∧ isFailedMsg pe = false
            ∧ generate_contextual_thought gen = .error pe)) := by
  rcases gct_go_result_shape gen [0, 1, 2] (by decide) with hok | ⟨n, hn, hcase⟩
  · exact Or.inl hok
  · refine Or.inr ⟨n, hn, ?_⟩
    rcases hcase with ⟨te, h1, h2⟩ | ⟨resp, pe, h1, h2, h3⟩
    · exact Or.inl ⟨te, h1, h2⟩
    · exact Or.inr ⟨resp, pe, h1, h2, gti_error_not_failed resp pe h2, h3⟩

/-- C1: the structural thought parse reads the relevance from the remainder
of the line holding the `RELEVANCE:` marker, not from the line immediately
following it.  On the completion below — which follows the format the
prompt itself demands, with the score on its own line after `RELEVANCE:` —
the boundary is present, the line immediately following the marker is
"0.8" and parses as a number, yet the parse fails with the
"Invalid relevance score" error. -/
theorem relevance_on_next_line_rejected :
    generate_thought_internal (str "THOUGHT:\nFoster collaboration\nRELEVANCE:\n0.8")
      = .error .invalidRelevanceScore
    ∧ List.getD (rustSplit (str "RELEVANCE:")
        (List.getD (rustSplit (str "THOUGHT:")
          (str "THOUGHT:\nFoster collaboration\nRELEVANCE:\n0.8")) 1 [])) 1 []
      = str "\n0.8"
    ∧ rustLines (str "\n0.8") = [[], str "0.8"]
    ∧ parseNum (trimL (str "0.8")) = some (mkRat 4 5) := by
  exact ⟨by decide, by decide, by decide, by decide⟩

/-! ### Dimensional evaluation -/

/-- C4: splitting the completion on commas and discarding the tokens that do
not parse as numbers, the dimensional evaluation succeeds with exactly the
two numeric values in order when there are exactly two of them, and fails
with the format error otherwise. -/
theorem dimensional_two_token_contract :
    (∀ (response : Str) (a b : ℚ),
      (splitChar ',' response).filterMap (fun s => parseNum (trimL s)) = [a, b] →
      evaluate_dimensional_state response = .ok (a, b))
    ∧ (∀ response : Str,
      ((splitChar ',' response).filterMap (fun s => parseNum (trimL s))).length ≠ 2 →
      evaluate_dimensional_state response = .error .invalidResponseFormat) := by
  constructor
  · intro response a b h
    simp [evaluate_dimensional_state, h]
  · intro response h
    simp [evaluate_dimensional_state, h]

theorem dimensional_two_token_contract_witness :
    evaluate_dimensional_state (str "0.5, -0.2") = .ok (mkRat 1 2, mkRat (-1) 5)
    ∧ evaluate_dimensional_state (str "a,b,c") = .error .invalidResponseFormat := by
  constructor
  · exact dimensional_two_token_contract.1 (str "0.5, -0.2")
      (mkRat 1 2) (mkRat (-1) 5) (by decide)
  · exact dimensional_two_token_contract.2 (str "a,b,c") (by decide)

/-! ### Plan creation -/

/-- C7: a node accepted by the node parser carries the parsed third
pipe-delimited part as completion estimate, with fallback 0 when it does
not parse and clamping into [0, 1]; concretely 1.5 clamps to 1 and -0.3
clamps to 0. -/
theorem node_estimate_clamped :
    (∀ (line : Str) (node : PlanNode), parse_plan_node line = some node →
      node.estimated_completion
        = max 0 (min ((parseNum (trimL (List.getD (splitChar '|' line) 2 []))).getD 0) 1)
      ∧ 0 ≤ node.estimated_completion ∧ node.estimated_completion ≤ 1)
    ∧ (∃ node, parse_plan_node (str "A | B | 1.5") = some node
        ∧ node.estimated_completion = 1)
    ∧ (∃ node, parse_plan_node (str "A | B | -0.3") = some node
        ∧ node.estimated_completion = 0)
    ∧ (∃ node, parse_plan_node (str "A | B | soon") = some node
        ∧ node.estimated_completion = 0) := by
  refine ⟨?_, ⟨⟨str "A", str "B", .Pending, 1, []⟩, by decide, rfl⟩,
    ⟨⟨str "A", str "B", .Pending, 0, []⟩, by decide, rfl⟩,
    ⟨⟨str "A", str "B", .Pending, 0, []⟩, by decide, rfl⟩⟩
  intro line node h
  simp only [parse_plan_node] at h
  split at h
  · split at h
    · obtain rfl :
          ({ title := trimL (List.getD (splitChar '|' line) 0 []),
             description := trimL (List.getD (splitChar '|' line) 1 []),
             status := .Pending,
             estimated_completion := max 0
               (min ((parseNum (trimL (List.getD (splitChar '|' line) 2 []))).getD 0) 1),
             dependencies := [] } : PlanNode) = node := by
        simpa using h
      exact ⟨rfl, le_max_left 0 _, max_le zero_le_one (min_le_right _ _)⟩
    · exact Option.noConfusion h
  · exact Option.noConfusion h

theorem node_estimate_clamped_witness :
    parse_plan_node (str "X | Y | 0.7")
      = some ⟨str "X", str "Y", .Pending, mkRat 7 10, []⟩
    ∧ (mkRat 7 10)
        = max 0 (min ((parseNum (trimL
            (List.getD (splitChar '|' (str "X | Y | 0.7")) 2 []))).getD 0) 1) := by
  have h : parse_plan_node (str "X | Y | 0.7")
      = some ⟨str "X", str "Y", .Pending, mkRat 7 10, []⟩ := by decide
  exact ⟨h, (node_estimate_clamped.1 (str "X | Y | 0.7") _ h).1⟩

theorem padNodesGo_of_ge (k : Nat) (l : List PlanNode) (h : 3 ≤ l.length) :
    padNodesGo k l = l := by
  cases k with
  | zero => rfl
  | succ k => simp [padNodesGo, Nat.not_lt.mpr h]

theorem padNodesGo_length : ∀ (k : Nat) (l : List PlanNode),
    min 3 (l.length + k) ≤ (padNodesGo k l).length := by
  intro k
  induction k with
  | zero => intro l; simp only [padNodesGo, Nat.add_zero]; omega
  | succ k ih =>
    intro l
    by_cases h : l.length < 3
    · simp only [padNodesGo, if_pos h]
      have := ih (l ++ [create_default_node (l.length + 1)])
      simp only [List.length_append, List.length_cons, List.length_nil] at this
      omega
    · simp only [padNodesGo, if_neg h]
      omega

/-- C5: every plan built by `create_plan` has at least three nodes, and the
padding is exactly as specified — zero parsed node lines yield the three
synthesized defaults referencing the (possibly default) summary, two parsed
nodes are kept and padded with one "Phase 3" node, and three or more parsed
nodes are kept untouched (a floor, not a ceiling); the construction never
fails. -/
theorem plan_has_at_least_three_nodes (thoughts : List Str) (response : Str) :
    3 ≤ (create_plan thoughts response).nodes.length
    ∧ ((create_plan_sections response).2.1 = [] →
        (create_plan thoughts response).nodes
          = generate_default_nodes (create_plan_sections response).1)
    ∧ (∀ n1 n2 : PlanNode, (create_plan_sections response).2.1 = [n1, n2] →
        (create_plan thoughts response).nodes = [n1, n2, create_default_node 3])
    ∧ (3 ≤ (create_plan_sections response).2.1.length →
        (create_plan thoughts response).nodes = (create_plan_sections response).2.1) := by
  have hnodes : (create_plan thoughts response).nodes
      = padNodes (if (create_plan_sections response).2.1.isEmpty
          then generate_default_nodes (create_plan_sections response).1
          else (create_plan_sections response).2.1) := rfl
  refine ⟨?_, ?_, ?_, ?_⟩
  · rw [hnodes]
    by_cases he : (create_plan_sections response).2.1.isEmpty
    · rw [if_pos he, padNodes,
        padNodesGo_of_ge 3 _ (by simp [generate_default_nodes])]
      simp [generate_default_nodes]
    · rw [if_neg he]
      have hlen := padNodesGo_length 3 (create_plan_sections response).2.1
      rw [padNodes]
      omega
  · intro h0
    rw [hnodes, if_pos (by simp [h0]), padNodes,
      padNodesGo_of_ge 3 _ (by simp [generate_default_nodes])]
  · intro n1 n2 h2
    rw [hnodes, h2]
    simp [padNodes, padNodesGo]
  · intro h3
    rw [hnodes,
      if_neg (by
        intro hemp
        rw [List.isEmpty_iff] at hemp
        rw [hemp] at h3
        simp at h3),
      padNodes, padNodesGo_of_ge 3 _ h3]

theorem plan_has_at_least_three_nodes_witness :
    (create_plan [] []).nodes
      = generate_default_nodes (str "Plan based on collected thoughts")
    ∧ 3 ≤ (create_plan [] []).nodes.length
    ∧ (create_plan []
        (str "NODES:\n1|d1|0\n2|d2|0\n3|d3|0\n4|d4|0\n5|d5|0")).nodes.length = 5 := by
  refine ⟨?_, (plan_has_at_least_three_nodes [] []).1, ?_⟩
  · have h := (plan_has_at_least_three_nodes [] []).2.1 (by decide)
    exact h.trans (by decide)
  · have h := (plan_has_at_least_three_nodes []
      (str "NODES:\n1|d1|0\n2|d2|0\n3|d3|0\n4|d4|0\n5|d5|0")).2.2.2 (by decide)
    rw [h]
    decide

/-! ### The batch coordinator -/

theorem hmInsert_of_fresh [DecidableEq κ] (m : List (κ × α)) (k : κ) (v : α)
    (h : ∀ q ∈ m, k ≠ q.1) : hmInsert m k v = m ++ [(k, v)] := by
  induction m with
  | nil => rfl
  | cons p rest ih =>
    obtain ⟨k', v'⟩ := p
    have hk : ¬ k = k' := h (k', v') (by simp)
    simp only [hmInsert, if_neg hk, List.cons_append, List.cons.injEq, true_and]
    exact ih fun q hq => h q (List.mem_cons_of_mem _ hq)

theorem gctb_go_all_success [DecidableEq κ] (gen : Ctx → Nat → Except Nat Str)
    (f : Ctx → Str × ℚ × List Str) :
    ∀ (cells : List (κ × Ctx)) (acc : List (κ × List (Str × ℚ × List Str))),
      (∀ p ∈ cells, generate_contextual_thought (gen p.2) = .ok (f p.2)) →
      (cells.map Prod.fst).Nodup →
      (∀ p ∈ cells, ∀ q ∈ acc, p.1 ≠ q.1) →
      gctb_go gen cells acc = .ok (acc ++ cells.map fun p => (p.1, [f p.2])) := by
  intro cells
  induction cells with
  | nil => intro acc _ _ _; simp [gctb_go]
  | cons p rest ih =>
    intro acc hok hnodup hdisj
    obtain ⟨cid, ctx⟩ := p
    have h1 : generate_contextual_thought (gen ctx) = .ok (f ctx) :=
      hok (cid, ctx) (by simp)
    have hfresh : ∀ q ∈ acc, cid ≠ q.1 := fun q hq => hdisj (cid, ctx) (by simp) q hq
    have hnodup' : (rest.map Prod.fst).Nodup := by
      simp only [List.map_cons, List.nodup_cons] at hnodup
      exact hnodup.2
    have hcidout : cid ∉ rest.map Prod.fst := by
      simp only [List.map_cons, List.nodup_cons] at hnodup
      exact hnodup.1
    have hdisj' : ∀ p' ∈ rest, ∀ q ∈ acc ++ [(cid, [f ctx])], p'.1 ≠ q.1 := by
      intro p' hp' q hq
      rcases List.mem_append.mp hq with hq1 | hq2
      · exact hdisj p' (List.mem_cons_of_mem _ hp') q hq1
      · obtain rfl : q = (cid, [f ctx]) := by simpa using hq2
        intro hcontra
        refine hcidout ?_
        have hmem : p'.1 ∈ rest.map Prod.fst := List.mem_map_of_mem Prod.fst hp'
        simpa [hcontra] using hmem
    simp only [gctb_go, h1]
    rw [hmInsert_of_fresh acc cid [f ctx] hfresh,
      ih (acc ++ [(cid, [f ctx])])
        (fun q hq => hok q (List.mem_cons_of_mem _ hq)) hnodup' hdisj']
    simp

/-- C9 (amended): over identities that are pairwise distinct, a batch in
which every per-identity generation succeeds returns the mapping with
exactly one key per input pair, each holding the single-element list with
the result the standalone call for that identity's context produces; with a
duplicated identity the insert of the later pair overwrites the earlier
one, so the key count can be below the pair count (see the
counterexample). -/
theorem batch_all_success_distinct_ids [DecidableEq κ]
    (gen : Ctx → Nat → Except Nat Str) (cells : List (κ × Ctx))
    (f : Ctx → Str × ℚ × List Str)
    (hnodup : (cells.map Prod.fst).Nodup)
    (hok : ∀ p ∈ cells, generate_contextual_thought (gen p.2) = .ok (f p.2)) :
    generate_contextual_thoughts_batch gen cells []
      = .ok (cells.map fun p => (p.1, [f p.2]))
    ∧ (cells.map fun p => (p.1, [f p.2])).length = cells.length
    ∧ (cells.map fun p => (p.1, [f p.2])).map Prod.fst = cells.map Prod.fst := by
  refine ⟨?_, by simp, by simp⟩
  unfold generate_contextual_thoughts_batch
  simpa using gctb_go_all_success gen f cells [] hok hnodup (by simp)

theorem batch_all_success_distinct_ids_witness :
    generate_contextual_thoughts_batch
        (fun (_ : Unit) _ => .ok (str "THOUGHT:\nAlign goals\nRELEVANCE: 0.6"))
        [((0 : Nat), ()), (1, ())] []
      = .ok [(0, [(str "Align goals", mkRat 3 5, [])]),
             (1, [(str "Align goals", mkRat 3 5, [])])] := by
  have h := (batch_all_success_distinct_ids
    (fun (_ : Unit) _ => .ok (str "THOUGHT:\nAlign goals\nRELEVANCE: 0.6"))
    [((0 : Nat), ()), (1, ())]
    (fun _ => (str "Align goals", mkRat 3 5, []))
    (by decide)
    (fun p hp => by
      show generate_contextual_thought
          (fun _ => .ok (str "THOUGHT:\nAlign goals\nRELEVANCE: 0.6"))
        = .ok (str "Align goals", mkRat 3 5, [])
      decide)).1
  exact h.trans (by decide)

/-- C9 counterexample: two pairs sharing the same identity produce a mapping
with a single key, not two — the later insert overwrites the earlier
entry. -/
theorem batch_duplicate_ids_counterexample :
    generate_contextual_thoughts_batch
        (fun (_ : Unit) _ => .ok (str "THOUGHT:\nPool insights\nRELEVANCE: 0.9"))
        [((0 : Nat), ()), (0, ())] []
      = .ok [(0, [(str "Pool insights", mkRat 9 10, [])])]
    ∧ [((0 : Nat), ()), ((0 : Nat), ())].length = 2
    ∧ [((0 : Nat), [(str "Pool insights", mkRat 9 10, ([] : List Str))])].length = 1 := by
  exact ⟨by decide, rfl, rfl⟩
